import Mathlib

/-!
Verification of the question-paper allocation core of
`backend/routes/paperRoutes.js`.

The shallow embedding below translates the route's helpers and the
`/generate` handler into pure Lean functions:

* a question is a record with a unique identifier and a marks value
  (all other fields are opaque payload, irrelevant to the algorithm);
* `shuffleArray` is the Fisher–Yates loop, parametrised by the sequence of
  random indices `rnd i = Math.floor(Math.random() * (i + 1))` drawn at
  loop counter `i`;
* `pickRandom`, `qByMarks`, `pickUnique` and `generate` mirror the
  corresponding JavaScript functions line by line, with the mutable
  `usedIds` set threaded explicitly;
* the HTTP 404 response for an empty database is modelled by
  `generate` returning `none`;
* `allocAux`/`allocate` run an arbitrary ordered quota plan by iterating
  `pickUnique` exactly as the handler does for its four fixed requests.
-/

/-- A question record: `_id` is the database identifier
(`String(q._id)` in the route; identifiers are modelled as naturals,
string conversion being injective on them), `marks` its point value. -/
structure Question where
  qid : Nat
  marks : Nat
deriving DecidableEq, Repr

/-- Swap the entries at positions `i` and `j`
(`[arr[i], arr[j]] = [arr[j], arr[i]]`); out-of-range positions leave the
list unchanged (the JavaScript loop only ever uses in-range positions). -/
def listSwap (l : List α) (i j : Nat) : List α :=
  match l[i]?, l[j]? with
  | some a, some b => (l.set i b).set j a
  | _, _ => l

/-- `shuffleArray` (Fisher–Yates): for `i = length-1` down to `1`, swap
position `i` with position `rnd i`, where `rnd i` models
`Math.floor(Math.random() * (i + 1))` (hence `rnd i ≤ i` at runtime).
The JavaScript function works on a copy (`array.slice()`), so the pure
translation simply returns the shuffled list. -/
def shuffleArray (rnd : Nat → Nat) (array : List α) : List α :=
  (List.range' 1 (array.length - 1)).reverse.foldl
    (fun arr i => listSwap arr i (rnd i)) array

/-- `pickRandom`: pick `n` items without replacement — shuffle, then
`slice(0, Math.max(0, n))`; an empty (or missing) array yields `[]`. -/
def pickRandom (rnd : Nat → Nat) (array : List α) (n : Int) : List α :=
  if array.isEmpty then []
  else (shuffleArray rnd array).take (max 0 n).toNat

/-- `qByMarks`: the object literal `{2: …, 3: …, 5: …}` grouping questions
by marks; `none` models the absence of a key (JavaScript `undefined`). -/
def qByMarks (allQuestions : List Question) (mark : Nat) :
    Option (List Question) :=
  if mark = 2 then some (allQuestions.filter (fun q => q.marks == 2))
  else if mark = 3 then some (allQuestions.filter (fun q => q.marks == 3))
  else if mark = 5 then some (allQuestions.filter (fun q => q.marks == 5))
  else none

/-- The bucket the allocator actually reads: `qByMarks[mark] || []`. -/
def bucketOf (allQuestions : List Question) (mark : Nat) : List Question :=
  (qByMarks allQuestions mark).getD []

/-- `pickUnique(mark, count)` with the closure state made explicit:
filter the bucket by the current `usedIds` set, then `pickRandom`. -/
def pickUnique (rnd : Nat → Nat) (allQuestions : List Question)
    (usedIds : List Nat) (mark : Nat) (count : Int) : List Question :=
  let pool := bucketOf allQuestions mark
  let available := pool.filter (fun q => !usedIds.contains q.qid)
  pickRandom rnd available count

/-- `picked.forEach(q => usedIds.add(String(q._id)))`. -/
def usedAfter (usedIds : List Nat) (picked : List Question) : List Nat :=
  usedIds ++ picked.map (fun q => q.qid)

/-- Run an ordered quota plan (pairs of bucket key and desired count) by
iterating `pickUnique` with the threaded used-set, exactly as the handler
does for its four fixed requests; `k` indexes the per-request random
source. -/
def allocAux (rnd : Nat → Nat → Nat) (allQuestions : List Question) :
    Nat → List Nat → List (Nat × Int) → List (List Question)
  | _, _, [] => []
  | k, used, (m, c) :: rest =>
    let picked := pickUnique (rnd k) allQuestions used m c
    picked :: allocAux rnd allQuestions (k + 1) (usedAfter used picked) rest

/-- An allocation run over a plan, starting from an empty used-set. -/
def allocate (rnd : Nat → Nat → Nat) (allQuestions : List Question)
    (plan : List (Nat × Int)) : List (List Question) :=
  allocAux rnd allQuestions 0 [] plan

/-- Identifiers delivered by a list of result sequences, in order. -/
def idsOf (sections : List (List Question)) : List Nat :=
  (sections.map (fun s => s.map (fun q => q.qid))).flatten

/-- The sequence of random indices consumed by `shuffleArray` on a list
of length `n`, in consumption order: `[rnd (n-1), …, rnd 1]`. -/
def choicesOf (rnd : Nat → Nat) (n : Nat) : List Nat :=
  (List.range' 1 (n - 1)).reverse.map rnd

/-- The Fisher–Yates loop driven by an explicit list of choices, one
swap per choice: swap the last position with the chosen one, pin it,
and continue on the remaining prefix. -/
def applyChoices : List Nat → List α → List α
  | [], l => l
  | c :: cs, l =>
    let l1 := listSwap l (l.length - 1) c
    applyChoices cs (l1.take (l.length - 1)) ++ l1.drop (l.length - 1)

/-- A valid choice sequence for a list of length `n`: one choice per
loop iteration, the `k`-th one drawn from `{0, …, n-1-k}` — exactly the
values `Math.floor(Math.random() * (i + 1))` can take at loop counter
`i = n-1-k`. -/
def ValidChoices (n : Nat) (cs : List Nat) : Prop :=
  cs.length = n - 1 ∧ ∀ k, k < cs.length → cs.getD k 0 ≤ n - 1 - k

/-- `report.wanted`. -/
structure Wanted where
  sectionA : Nat
  sectionB_part1 : Nat
  sectionB_part2 : Nat
  sectionC : Nat
deriving DecidableEq, Repr

/-- `report.available`: total pool size per marks value. -/
structure Available where
  mark2 : Nat
  mark3 : Nat
  mark5 : Nat
deriving DecidableEq, Repr

/-- `report.pickedCounts`: delivered count per request. -/
structure PickedCounts where
  sectionA : Nat
  sectionB_part1 : Nat
  sectionB_part2 : Nat
  sectionC : Nat
deriving DecidableEq, Repr

/-- The shortage report assembled by the handler. -/
structure Report where
  wanted : Wanted
  available : Available
  pickedCounts : PickedCounts
deriving DecidableEq, Repr

/-- The question paper returned by `/generate` (metadata fields that are
not data-dependent — titles, timestamps — are omitted). -/
structure Paper where
  sectionA : List Question
  sectionB_part1 : List Question
  sectionB_part2 : List Question
  sectionC : List Question
  sectionB : List Question
  totalQuestions : Nat
  totalMarks : Nat
  report : Report
deriving DecidableEq, Repr

/-- The `/generate` handler: `none` models the 404 "No questions found"
response for an empty collection; otherwise the four `pickUnique` calls
run in order (section A, section B part 1, section B part 2, section C)
sharing the `usedIds` set, and the paper plus shortage report is built.
Each call receives its own random-index sequence. -/
def generate (rA rB1 rB2 rC : Nat → Nat) (allQuestions : List Question) :
    Option Paper :=
  if allQuestions.isEmpty then none
  else
    let u0 : List Nat := []
    let sectionA := pickUnique rA allQuestions u0 2 10
    let u1 := usedAfter u0 sectionA
    let sectionB_part1 := pickUnique rB1 allQuestions u1 2 5
    let u2 := usedAfter u1 sectionB_part1
    let sectionB_part2 := pickUnique rB2 allQuestions u2 3 5
    let u3 := usedAfter u2 sectionB_part2
    let sectionC := pickUnique rC allQuestions u3 5 7
    let sectionB := sectionB_part1 ++ sectionB_part2
    let totalMarksComputed :=
      (sectionA.map (fun q => q.marks)).sum +
      (sectionB.map (fun q => q.marks)).sum +
      (sectionC.map (fun q => q.marks)).sum
    some {
      sectionA := sectionA
      sectionB_part1 := sectionB_part1
      sectionB_part2 := sectionB_part2
      sectionC := sectionC
      sectionB := sectionB
      totalQuestions := sectionA.length + sectionB.length + sectionC.length
      totalMarks := totalMarksComputed
      report := {
        wanted := ⟨10, 5, 5, 7⟩
        available := ⟨(bucketOf allQuestions 2).length,
                      (bucketOf allQuestions 3).length,
                      (bucketOf allQuestions 5).length⟩
        pickedCounts := ⟨sectionA.length, sectionB_part1.length,
                         sectionB_part2.length, sectionC.length⟩ } }

example : shuffleArray (fun _ => 0) [1, 2, 3] = [2, 3, 1] := by decide

example : pickRandom (fun _ => 0) [1, 2, 3] (-2) = [] := by decide

example :
    pickUnique (fun _ => 0) [⟨1, 2⟩, ⟨2, 2⟩] [1] 2 5 = [⟨2, 2⟩] := by decide

example :
    allocate (fun _ _ => 0) [⟨1, 2⟩, ⟨2, 2⟩] [(2, 1), (2, 5)] =
      [[⟨2, 2⟩], [⟨1, 2⟩]] := by decide

/-! ### Basic facts about `listSwap` and `shuffleArray` -/

theorem list_set_self (l : List α) (i : Nat) (h : i < l.length) :
    l.set i l[i] = l := by
  apply List.ext_getElem
  · simp
  · intro n h1 h2
    simp only [List.getElem_set]
    split
    · next he => subst he; rfl
    · rfl

theorem listSwap_length (l : List α) (i j : Nat) :
    (listSwap l i j).length = l.length := by
  cases h1 : l[i]? <;> cases h2 : l[j]? <;> simp [listSwap, h1, h2]

theorem perm_swap_middle (T E F : List α) (a b : α) :
    (T ++ b :: (E ++ a :: F)).Perm (T ++ a :: (E ++ b :: F)) := by
  apply List.Perm.append_left
  refine (List.Perm.cons b List.perm_middle).trans ?_
  refine (List.Perm.swap a b (E ++ F)).trans ?_
  exact List.Perm.cons a List.perm_middle.symm

theorem set_set_perm : ∀ (l : List α) (i j : Nat) (a b : α), i < j →
    l[i]? = some a → l[j]? = some b → ((l.set i b).set j a).Perm l
  | [], _, _, _, _, _, ha, _ => by simp at ha
  | x :: t, 0, j, a, b, hij, ha, hb => by
    obtain ⟨j', rfl⟩ : ∃ j', j = j' + 1 := ⟨j - 1, by omega⟩
    simp only [List.getElem?_cons_zero, Option.some.injEq] at ha
    simp only [List.getElem?_cons_succ] at hb
    subst ha
    obtain ⟨hj', hbe⟩ := List.getElem?_eq_some_iff.1 hb
    show (b :: t.set j' x).Perm (x :: t)
    have ht : t = t.take j' ++ b :: t.drop (j' + 1) := by
      conv_lhs => rw [← List.take_append_drop j' t]
      rw [List.drop_eq_getElem_cons hj', hbe]
    rw [List.set_eq_take_cons_drop x hj']
    conv_rhs => rw [ht]
    simpa using perm_swap_middle [] (t.take j') (t.drop (j' + 1)) x b
  | x :: t, i + 1, j, a, b, hij, ha, hb => by
    obtain ⟨j', rfl⟩ : ∃ j', j = j' + 1 := ⟨j - 1, by omega⟩
    simp only [List.getElem?_cons_succ] at ha hb
    exact List.Perm.cons x (set_set_perm t i j' a b (by omega) ha hb)

theorem listSwap_perm (l : List α) (i j : Nat) : (listSwap l i j).Perm l := by
  cases h1 : l[i]? with
  | none => simp [listSwap, h1]
  | some a =>
    cases h2 : l[j]? with
    | none => simp [listSwap, h1, h2]
    | some b =>
      simp only [listSwap, h1, h2]
      rcases Nat.lt_trichotomy i j with h | h | h
      · exact set_set_perm l i j a b h h1 h2
      · subst h
        rw [h1] at h2
        injection h2 with hab
        subst hab
        obtain ⟨hi, he⟩ := List.getElem?_eq_some_iff.1 h1
        rw [List.set_set, ← he, list_set_self l i hi]
      · rw [List.set_comm _ _ _ (by omega : i ≠ j)]
        exact set_set_perm l j i b a h h2 h1

theorem foldl_listSwap_length (rnd : Nat → Nat) :
    ∀ (L : List Nat) (l : List α),
      (L.foldl (fun arr i => listSwap arr i (rnd i)) l).length = l.length
  | [], _ => rfl
  | i :: L, l => by
    rw [List.foldl_cons]
    rw [foldl_listSwap_length rnd L, listSwap_length]

theorem shuffleArray_length (rnd : Nat → Nat) (l : List α) :
    (shuffleArray rnd l).length = l.length :=
  foldl_listSwap_length rnd _ l

theorem foldl_listSwap_perm (rnd : Nat → Nat) :
    ∀ (L : List Nat) (l : List α),
      (L.foldl (fun arr i => listSwap arr i (rnd i)) l).Perm l
  | [], l => List.Perm.refl l
  | i :: L, l => by
    rw [List.foldl_cons]
    exact (foldl_listSwap_perm rnd L _).trans (listSwap_perm l i (rnd i))

/-- The shuffled list is a rearrangement of the input, whatever indices
the random source produced. -/
theorem shuffleArray_perm (rnd : Nat → Nat) (l : List α) :
    (shuffleArray rnd l).Perm l :=
  foldl_listSwap_perm rnd _ l

/-! ### Basic facts about `pickRandom`, `bucketOf`, `pickUnique` -/

theorem pickRandom_length (rnd : Nat → Nat) (l : List α) (n : Int) :
    (pickRandom rnd l n).length = min (max 0 n).toNat l.length := by
  rw [pickRandom]
  split
  · next h =>
    rw [List.isEmpty_iff] at h
    subst h
    simp
  · rw [List.length_take, shuffleArray_length]

theorem pickRandom_sublist (rnd : Nat → Nat) (l : List α) (n : Int) :
    (pickRandom rnd l n).Sublist (shuffleArray rnd l) := by
  rw [pickRandom]
  split
  · exact List.nil_sublist _
  · exact List.take_sublist _ _

theorem pickRandom_subset (rnd : Nat → Nat) (l : List α) (n : Int) :
    ∀ q ∈ pickRandom rnd l n, q ∈ l := fun _ hq =>
  (shuffleArray_perm rnd l).mem_iff.1 ((pickRandom_sublist rnd l n).subset hq)

theorem pickRandom_map_nodup (rnd : Nat → Nat) (l : List α) (n : Int)
    (f : α → β) (h : (l.map f).Nodup) : ((pickRandom rnd l n).map f).Nodup :=
  (List.Sublist.map f (pickRandom_sublist rnd l n)).nodup
    (((shuffleArray_perm rnd l).map f).nodup_iff.2 h)

theorem bucketOf_sublist (all : List Question) (m : Nat) :
    (bucketOf all m).Sublist all := by
  rw [bucketOf, qByMarks]
  split_ifs <;> simp [List.filter_sublist]

theorem pickUnique_length (rnd : Nat → Nat) (all : List Question)
    (used : List Nat) (m : Nat) (c : Int) :
    (pickUnique rnd all used m c).length =
      min (max 0 c).toNat
        ((bucketOf all m).filter (fun q => !used.contains q.qid)).length := by
  rw [pickUnique]
  exact pickRandom_length rnd _ c

theorem pickUnique_mem (rnd : Nat → Nat) (all : List Question)
    (used : List Nat) (m : Nat) (c : Int) :
    ∀ q ∈ pickUnique rnd all used m c,
      q ∈ bucketOf all m ∧ q.qid ∉ used := by
  intro q hq
  have hmem := pickRandom_subset rnd _ c q hq
  rw [List.mem_filter] at hmem
  refine ⟨hmem.1, ?_⟩
  have hb := hmem.2
  simp only [Bool.not_eq_true'] at hb
  simpa using hb

theorem pickUnique_map_nodup (rnd : Nat → Nat) (all : List Question)
    (used : List Nat) (m : Nat) (c : Int)
    (h : (all.map (fun q => q.qid)).Nodup) :
    ((pickUnique rnd all used m c).map (fun q => q.qid)).Nodup := by
  rw [pickUnique]
  apply pickRandom_map_nodup
  exact ((List.filter_sublist _).trans (bucketOf_sublist all m)).map _ |>.nodup h

/-! ### Facts about the allocation run -/

theorem idsOf_nil : idsOf [] = [] := rfl

theorem idsOf_cons (s : List Question) (rest : List (List Question)) :
    idsOf (s :: rest) = s.map (fun q => q.qid) ++ idsOf rest := by
  simp [idsOf]

theorem allocAux_length (rnd : Nat → Nat → Nat) (all : List Question) :
    ∀ (plan : List (Nat × Int)) (k : Nat) (used : List Nat),
      (allocAux rnd all k used plan).length = plan.length
  | [], _, _ => rfl
  | (_, _) :: rest, k, used => by
    simp only [allocAux, List.length_cons]
    rw [allocAux_length rnd all rest]

theorem allocate_length (rnd : Nat → Nat → Nat) (all : List Question)
    (plan : List (Nat × Int)) :
    (allocate rnd all plan).length = plan.length :=
  allocAux_length rnd all plan 0 []

theorem allocAux_getD (rnd : Nat → Nat → Nat) (all : List Question) :
    ∀ (plan : List (Nat × Int)) (k0 : Nat) (used : List Nat) (j : Nat),
      j < plan.length →
      (allocAux rnd all k0 used plan).getD j [] =
        pickUnique (rnd (k0 + j)) all
          (used ++ idsOf ((allocAux rnd all k0 used plan).take j))
          ((plan.getD j (0, 0)).1) ((plan.getD j (0, 0)).2)
  | [], _, _, j, hj => absurd hj (by simp)
  | (m, c) :: rest, k0, used, 0, _ => by
    simp [allocAux, idsOf]
  | (m, c) :: rest, k0, used, j + 1, hj => by
    simp only [allocAux, List.getD_cons_succ, List.take_succ_cons, idsOf_cons]
    rw [allocAux_getD rnd all rest (k0 + 1) _ j (by simpa using hj)]
    have harith : k0 + 1 + j = k0 + (j + 1) := by omega
    rw [harith, usedAfter, List.append_assoc]

theorem bucketOf_nil (m : Nat) : bucketOf [] m = [] := by
  rw [bucketOf, qByMarks]
  split_ifs <;> simp

theorem pickUnique_nil (rnd : Nat → Nat) (used : List Nat) (m : Nat)
    (c : Int) : pickUnique rnd [] used m c = [] := by
  rw [pickUnique, bucketOf_nil]
  simp [pickRandom]

/-! ### Claim C9 -/

/-- C9: a quota request naming a key with no bucket in the bucket map
(any marks value other than 2, 3, 5) behaves exactly as a bucket of size
zero: the key is absent (`qByMarks` yields `none`) and the delivered
sequence is empty, with no error. -/
theorem C9_missing_key (rnd : Nat → Nat) (all : List Question)
    (used : List Nat) (mark : Nat) (count : Int)
    (h2 : mark ≠ 2) (h3 : mark ≠ 3) (h5 : mark ≠ 5) :
    qByMarks all mark = none ∧ pickUnique rnd all used mark count = [] := by
  have hq : qByMarks all mark = none := by
    rw [qByMarks]
    simp [h2, h3, h5]
  refine ⟨hq, ?_⟩
  rw [pickUnique, bucketOf, hq]
  simp [pickRandom]

theorem C9_missing_key_witness :
    qByMarks [⟨0, 2⟩] 7 = none ∧
      pickUnique (fun _ => 0) [⟨0, 2⟩] [] 7 4 = [] :=
  C9_missing_key (fun _ => 0) [⟨0, 2⟩] [] 7 4 (by decide) (by decide)
    (by decide)

/-! ### Claim C6 -/

theorem bucketOf_two (all : List Question) :
    bucketOf all 2 = all.filter (fun q => q.marks == 2) := by
  rw [bucketOf, qByMarks]
  simp

theorem bucketOf_three (all : List Question) :
    bucketOf all 3 = all.filter (fun q => q.marks == 3) := by
  rw [bucketOf, qByMarks]
  simp

theorem bucketOf_five (all : List Question) :
    bucketOf all 5 = all.filter (fun q => q.marks == 5) := by
  rw [bucketOf, qByMarks]
  simp

/-- C6: for every run on a non-empty collection, the reported pool size
per key (`report.available`) equals the pre-allocation size of that
bucket — the filters are computed on the original collection, unaffected
by the used-set exclusions of earlier requests. -/
theorem C6_report_pool_size (rA rB1 rB2 rC : Nat → Nat)
    (all : List Question) (h : all.isEmpty = false) :
    (generate rA rB1 rB2 rC all).map (fun p => p.report.available) =
      some ⟨(all.filter (fun q => q.marks == 2)).length,
            (all.filter (fun q => q.marks == 3)).length,
            (all.filter (fun q => q.marks == 5)).length⟩ := by
  simp [generate, h, bucketOf_two, bucketOf_three, bucketOf_five]

theorem C6_report_pool_size_witness :
    (generate (fun _ => 0) (fun _ => 0) (fun _ => 0) (fun _ => 0)
        [⟨0, 2⟩]).map (fun p => p.report.available) = some ⟨1, 0, 0⟩ := by
  have h := C6_report_pool_size (fun _ => 0) (fun _ => 0) (fun _ => 0)
    (fun _ => 0) [⟨0, 2⟩] (by decide)
  simpa using h

/-! ### Claim C4 -/

/-- C4 counterexample: a plan whose first request has a negative desired
count is not rejected — no `InvalidPlan` error exists in the code; the
run completes and the second request still draws an item, so sampling
does occur and partial results are returned, contrary to the claim. -/
theorem C4_counterexample :
    allocate (fun _ _ => 0) [⟨0, 2⟩] [(2, -1), (2, 1)] = [[], [⟨0, 2⟩]] ∧
      (allocate (fun _ _ => 0) [⟨0, 2⟩] [(2, -1), (2, 1)]).getD 1 [] ≠ [] := by
  decide

/-- C4 (amended): a negative desired count is clamped to zero by
`Math.max(0, n)`: the offending request delivers an empty sequence, no
error is signaled, and the remaining requests of the plan are still
processed (the run always yields one result sequence per request). -/
theorem C4_negative_count_clamped (rnd : Nat → Nat → Nat)
    (all : List Question) (plan : List (Nat × Int)) (k : Nat)
    (hk : k < plan.length) (hneg : (plan.getD k (0, 0)).2 < 0) :
    (allocate rnd all plan).length = plan.length ∧
      (allocate rnd all plan).getD k [] = [] := by
  refine ⟨allocate_length rnd all plan, ?_⟩
  rw [allocate, allocAux_getD rnd all plan 0 [] k hk]
  rw [pickUnique, pickRandom]
  split
  · rfl
  · have hmax : max (0 : Int) ((plan.getD k (0, 0)).2) = 0 :=
      max_eq_left (le_of_lt hneg)
    rw [hmax]
    simp

theorem C4_negative_count_clamped_witness :
    (allocate (fun _ _ => 0) [⟨0, 2⟩] [(2, -1), (2, 1)]).length = 2 ∧
      (allocate (fun _ _ => 0) [⟨0, 2⟩] [(2, -1), (2, 1)]).getD 0 [] = [] := by
  have h := C4_negative_count_clamped (fun _ _ => 0) [⟨0, 2⟩]
    [(2, -1), (2, 1)] 0 (by decide) (by decide)
  simpa using h

/-! ### Claim C5 -/

/-- C5 counterexample: on an empty collection `/generate` does **not**
complete with an all-zero report — it returns the 404 "No questions
found" error (modelled by `none`) before partitioning, so no result
sequences and no report exist at all. -/
theorem C5_counterexample :
    generate (fun _ => 0) (fun _ => 0) (fun _ => 0) (fun _ => 0) [] =
      none := by
  decide

theorem allocAux_empty_pool (rnd : Nat → Nat → Nat) :
    ∀ (plan : List (Nat × Int)) (k : Nat) (used : List Nat),
      ∀ s ∈ allocAux rnd [] k used plan, s = []
  | [], _, _ => by simp [allocAux]
  | (m, c) :: rest, k, used => by
    simp only [allocAux, pickUnique_nil, List.mem_cons]
    rintro s (rfl | hs)
    · rfl
    · exact allocAux_empty_pool rnd rest (k + 1) _ s hs

/-- C5 (amended): the partitioning and allocation core does treat an
empty collection as all-empty buckets — every bucket is an empty
sequence and every request of any plan delivers an empty sequence — but
the `/generate` route rejects an empty collection with a 404 error
(`none`) before partitioning, so no paper and no report are produced. -/
theorem C5_empty_input (rnd : Nat → Nat → Nat) (plan : List (Nat × Int))
    (rA rB1 rB2 rC : Nat → Nat) :
    qByMarks [] 2 = some [] ∧ qByMarks [] 3 = some [] ∧
      qByMarks [] 5 = some [] ∧
      (allocate rnd [] plan).length = plan.length ∧
      (∀ s ∈ allocate rnd [] plan, s = []) ∧
      generate rA rB1 rB2 rC [] = none := by
  refine ⟨by decide, by decide, by decide, allocate_length rnd [] plan,
    allocAux_empty_pool rnd plan 0 [], rfl⟩

/-! ### Claim C3 -/

/-- C3 counterexample: an item whose marks value is not one of 2, 3, 5
(here marks = 4) lands in **no** bucket, so the union of all bucket
contents is not a rearrangement of the input collection — the
partitioning step loses such items. -/
theorem C3_counterexample :
    ¬ (bucketOf [⟨0, 4⟩] 2 ++ bucketOf [⟨0, 4⟩] 3 ++
        bucketOf [⟨0, 4⟩] 5).Perm [(⟨0, 4⟩ : Question)] := by
  decide

/-- C3 (amended): every item whose marks value is 2, 3 or 5 appears in
exactly one bucket — the one keyed by its own marks value — and the
union of the three buckets is exactly (no loss, no duplication) the
sub-collection of input items whose marks value is 2, 3 or 5; items
with any other marks value appear in no bucket. -/
theorem C3_partition_known_marks (all : List Question) :
    (∀ q : Question, q ∈ bucketOf all 2 ↔ q ∈ all ∧ q.marks = 2) ∧
    (∀ q : Question, q ∈ bucketOf all 3 ↔ q ∈ all ∧ q.marks = 3) ∧
    (∀ q : Question, q ∈ bucketOf all 5 ↔ q ∈ all ∧ q.marks = 5) ∧
    (bucketOf all 2 ++ bucketOf all 3 ++ bucketOf all 5).Perm
      (all.filter (fun q => q.marks == 2 || q.marks == 3 ||
        q.marks == 5)) := by
  refine ⟨?_, ?_, ?_, ?_⟩
  · intro q
    rw [bucketOf_two]
    simp [List.mem_filter]
  · intro q
    rw [bucketOf_three]
    simp [List.mem_filter]
  · intro q
    rw [bucketOf_five]
    simp [List.mem_filter]
  · rw [bucketOf_two, bucketOf_three, bucketOf_five]
    induction all with
    | nil => simp
    | cons q rest ih =>
      by_cases h2 : q.marks = 2
      · simp only [List.filter_cons, h2]
        simp only [beq_self_eq_true, if_true, Bool.true_or, List.cons_append]
        exact ih.cons q
      · by_cases h3 : q.marks = 3
        · simp only [List.filter_cons, h3]
          have e2 : ((3 : Nat) == 2) = false := by decide
          simp only [beq_self_eq_true, e2, if_true, if_false,
            Bool.false_or, Bool.true_or]
          refine List.Perm.trans ?_ (ih.cons q)
          rw [List.append_assoc, List.append_assoc]
          exact List.perm_middle
        · by_cases h5 : q.marks = 5
          · simp only [List.filter_cons, h5]
            have e2 : ((5 : Nat) == 2) = false := by decide
            have e3 : ((5 : Nat) == 3) = false := by decide
            simp only [beq_self_eq_true, e2, e3, if_true, if_false,
              Bool.false_or, Bool.true_or]
            refine List.Perm.trans ?_ (ih.cons q)
            exact List.perm_middle
          · have e2 : (q.marks == 2) = false := by
              simpa using h2
            have e3 : (q.marks == 3) = false := by
              simpa using h3
            have e5 : (q.marks == 5) = false := by
              simpa using h5
            simpa [List.filter_cons, e2, e3, e5] using ih

theorem C3_partition_known_marks_witness :
    (bucketOf [⟨0, 2⟩, ⟨1, 4⟩] 2 ++ bucketOf [⟨0, 2⟩, ⟨1, 4⟩] 3 ++
      bucketOf [⟨0, 2⟩, ⟨1, 4⟩] 5).Perm
      ([⟨0, 2⟩, ⟨1, 4⟩].filter (fun q => q.marks == 2 || q.marks == 3 ||
        q.marks == 5)) :=
  (C3_partition_known_marks [⟨0, 2⟩, ⟨1, 4⟩]).2.2.2

/-! ### Claim C1 -/

/-- C1: in every allocation run, the `k`-th quota request of the plan
delivers exactly `min(wanted, |bucket minus used-set|)` items, where the
used-set at that time consists of the identifiers delivered by the
earlier requests. -/
theorem C1_quota_respect (rnd : Nat → Nat → Nat) (all : List Question)
    (plan : List (Nat × Int)) (k : Nat) (hk : k < plan.length)
    (hc : 0 ≤ (plan.getD k (0, 0)).2) :
    ((allocate rnd all plan).getD k []).length =
      min ((plan.getD k (0, 0)).2.toNat)
        (((bucketOf all ((plan.getD k (0, 0)).1)).filter
          (fun q =>
            !(idsOf ((allocate rnd all plan).take k)).contains q.qid)).length)
    := by
  rw [allocate, allocAux_getD rnd all plan 0 [] k hk, pickUnique_length]
  rw [max_eq_right hc, List.nil_append]

theorem C1_quota_respect_witness :
    ((allocate (fun _ _ => 0) [⟨0, 2⟩, ⟨1, 2⟩]
        [(2, 1), (2, 5)]).getD 1 []).length =
      min ((([((2 : Nat), (1 : Int)), (2, 5)].getD 1 (0, 0)).2).toNat)
        (((bucketOf [⟨0, 2⟩, ⟨1, 2⟩]
            (([((2 : Nat), (1 : Int)), (2, 5)].getD 1 (0, 0)).1)).filter
          (fun q =>
            !(idsOf ((allocate (fun _ _ => 0) [⟨0, 2⟩, ⟨1, 2⟩]
                [(2, 1), (2, 5)]).take 1)).contains q.qid)).length) :=
  C1_quota_respect (fun _ _ => 0) [⟨0, 2⟩, ⟨1, 2⟩] [(2, 1), (2, 5)] 1
    (by decide) (by decide)

/-! ### Claim C2 -/

theorem mem_usedAfter_left (used : List Nat) (picked : List Question)
    (x : Nat) (hx : x ∈ used) : x ∈ usedAfter used picked :=
  List.mem_append_left _ hx

theorem mem_usedAfter_right (used : List Nat) (picked : List Question)
    (x : Nat) (hx : x ∈ picked.map (fun q => q.qid)) :
    x ∈ usedAfter used picked :=
  List.mem_append_right _ hx

theorem pickUnique_ids_disjoint (rnd : Nat → Nat) (all : List Question)
    (used : List Nat) (m : Nat) (c : Int) (S : List Nat)
    (hS : ∀ x ∈ S, x ∈ used) :
    S.Disjoint ((pickUnique rnd all used m c).map (fun q => q.qid)) := by
  intro x hxS hxP
  rw [List.mem_map] at hxP
  obtain ⟨q, hq, rfl⟩ := hxP
  exact (pickUnique_mem rnd all used m c q hq).2 (hS _ hxS)

/-- C2: when the input identifiers are distinct, no identifier is
delivered to two different sections of the generated paper (A, B part 1,
B part 2, C), and no identifier repeats within a single section. -/
theorem C2_uniqueness (rA rB1 rB2 rC : Nat → Nat) (all : List Question)
    (paper : Paper) (hids : (all.map (fun q => q.qid)).Nodup)
    (hgen : generate rA rB1 rB2 rC all = some paper) :
    ((paper.sectionA.map (fun q => q.qid)).Nodup ∧
     (paper.sectionB_part1.map (fun q => q.qid)).Nodup ∧
     (paper.sectionB_part2.map (fun q => q.qid)).Nodup ∧
     (paper.sectionC.map (fun q => q.qid)).Nodup) ∧
    ((paper.sectionA.map (fun q => q.qid)).Disjoint
       (paper.sectionB_part1.map (fun q => q.qid)) ∧
     (paper.sectionA.map (fun q => q.qid)).Disjoint
       (paper.sectionB_part2.map (fun q => q.qid)) ∧
     (paper.sectionA.map (fun q => q.qid)).Disjoint
       (paper.sectionC.map (fun q => q.qid)) ∧
     (paper.sectionB_part1.map (fun q => q.qid)).Disjoint
       (paper.sectionB_part2.map (fun q => q.qid)) ∧
     (paper.sectionB_part1.map (fun q => q.qid)).Disjoint
       (paper.sectionC.map (fun q => q.qid)) ∧
     (paper.sectionB_part2.map (fun q => q.qid)).Disjoint
       (paper.sectionC.map (fun q => q.qid))) := by
  rw [generate] at hgen
  split at hgen
  · exact absurd hgen (by simp)
  · rw [Option.some_inj] at hgen
    subst hgen
    have hA1 : ∀ x ∈ (pickUnique rA all [] 2 10).map (fun q => q.qid),
        x ∈ usedAfter [] (pickUnique rA all [] 2 10) :=
      fun x hx => mem_usedAfter_right _ _ x hx
    have hA2 : ∀ x ∈ (pickUnique rA all [] 2 10).map (fun q => q.qid),
        x ∈ usedAfter (usedAfter [] (pickUnique rA all [] 2 10))
          (pickUnique rB1 all
            (usedAfter [] (pickUnique rA all [] 2 10)) 2 5) :=
      fun x hx => mem_usedAfter_left _ _ x (hA1 x hx)
    have hA3 : ∀ x ∈ (pickUnique rA all [] 2 10).map (fun q => q.qid),
        x ∈ usedAfter (usedAfter (usedAfter []
            (pickUnique rA all [] 2 10))
            (pickUnique rB1 all
              (usedAfter [] (pickUnique rA all [] 2 10)) 2 5))
          (pickUnique rB2 all
            (usedAfter (usedAfter [] (pickUnique rA all [] 2 10))
              (pickUnique rB1 all
                (usedAfter [] (pickUnique rA all [] 2 10)) 2 5)) 3 5) :=
      fun x hx => mem_usedAfter_left _ _ x (hA2 x hx)
    have hB12 : ∀ x ∈ (pickUnique rB1 all
          (usedAfter [] (pickUnique rA all [] 2 10)) 2 5).map
          (fun q => q.qid),
        x ∈ usedAfter (usedAfter [] (pickUnique rA all [] 2 10))
          (pickUnique rB1 all
            (usedAfter [] (pickUnique rA all [] 2 10)) 2 5) :=
      fun x hx => mem_usedAfter_right _ _ x hx
    have hB13 : ∀ x ∈ (pickUnique rB1 all
          (usedAfter [] (pickUnique rA all [] 2 10)) 2 5).map
          (fun q => q.qid),
        x ∈ usedAfter (usedAfter (usedAfter []
            (pickUnique rA all [] 2 10))
            (pickUnique rB1 all
              (usedAfter [] (pickUnique rA all [] 2 10)) 2 5))
          (pickUnique rB2 all
            (usedAfter (usedAfter [] (pickUnique rA all [] 2 10))
              (pickUnique rB1 all
                (usedAfter [] (pickUnique rA all [] 2 10)) 2 5)) 3 5) :=
      fun x hx => mem_usedAfter_left _ _ x (hB12 x hx)
    have hB23 : ∀ x ∈ (pickUnique rB2 all
          (usedAfter (usedAfter [] (pickUnique rA all [] 2 10))
            (pickUnique rB1 all
              (usedAfter [] (pickUnique rA all [] 2 10)) 2 5)) 3 5).map
          (fun q => q.qid),
        x ∈ usedAfter (usedAfter (usedAfter []
            (pickUnique rA all [] 2 10))
            (pickUnique rB1 all
              (usedAfter [] (pickUnique rA all [] 2 10)) 2 5))
          (pickUnique rB2 all
            (usedAfter (usedAfter [] (pickUnique rA all [] 2 10))
              (pickUnique rB1 all
                (usedAfter [] (pickUnique rA all [] 2 10)) 2 5)) 3 5) :=
      fun x hx => mem_usedAfter_right _ _ x hx
    refine ⟨⟨?_, ?_, ?_, ?_⟩, ?_, ?_, ?_, ?_, ?_, ?_⟩
    · exact pickUnique_map_nodup rA all [] 2 10 hids
    · exact pickUnique_map_nodup rB1 all _ 2 5 hids
    · exact pickUnique_map_nodup rB2 all _ 3 5 hids
    · exact pickUnique_map_nodup rC all _ 5 7 hids
    · exact pickUnique_ids_disjoint rB1 all _ 2 5 _ hA1
    · exact pickUnique_ids_disjoint rB2 all _ 3 5 _ hA2
    · exact pickUnique_ids_disjoint rC all _ 5 7 _ hA3
    · exact pickUnique_ids_disjoint rB2 all _ 3 5 _ hB12
    · exact pickUnique_ids_disjoint rC all _ 5 7 _ hB13
    · exact pickUnique_ids_disjoint rC all _ 5 7 _ hB23

theorem C2_uniqueness_witness :
    ((([⟨0, 2⟩] : List Question).map (fun q => q.qid)).Nodup ∧
     (([] : List Question).map (fun q => q.qid)).Nodup ∧
     (([] : List Question).map (fun q => q.qid)).Nodup ∧
     (([] : List Question).map (fun q => q.qid)).Nodup) ∧
    ((([⟨0, 2⟩] : List Question).map (fun q => q.qid)).Disjoint
       (([] : List Question).map (fun q => q.qid)) ∧
     (([⟨0, 2⟩] : List Question).map (fun q => q.qid)).Disjoint
       (([] : List Question).map (fun q => q.qid)) ∧
     (([⟨0, 2⟩] : List Question).map (fun q => q.qid)).Disjoint
       (([] : List Question).map (fun q => q.qid)) ∧
     (([] : List Question).map (fun q => q.qid)).Disjoint
       (([] : List Question).map (fun q => q.qid)) ∧
     (([] : List Question).map (fun q => q.qid)).Disjoint
       (([] : List Question).map (fun q => q.qid)) ∧
     (([] : List Question).map (fun q => q.qid)).Disjoint
       (([] : List Question).map (fun q => q.qid))) :=
  C2_uniqueness (fun _ => 0) (fun _ => 0) (fun _ => 0) (fun _ => 0)
    [⟨0, 2⟩]
    ⟨[⟨0, 2⟩], [], [], [], [], 1, 2, ⟨⟨10, 5, 5, 7⟩, ⟨1, 0, 0⟩,
      ⟨1, 0, 0, 0⟩⟩⟩
    (by decide) (by decide)

/-! ### Claim C7 -/

theorem length_filter_split (p : Question → Bool) (L : List Question) :
    L.length = (L.filter p).length + (L.filter (fun q => !p q)).length := by
  induction L with
  | nil => rfl
  | cons q t ih =>
    cases h : p q <;> simp [List.filter_cons, h] <;> omega

theorem length_filter_mem_eq (L : List Question) (S : List Nat)
    (hL : (L.map (fun q => q.qid)).Nodup) (hS : S.Nodup)
    (hsub : ∀ x ∈ S, x ∈ L.map (fun q => q.qid)) :
    (L.filter (fun q => S.contains q.qid)).length = S.length := by
  have h1 : ((L.map (fun q => q.qid)).filter
      (fun x => S.contains x)).Perm S := by
    rw [List.perm_ext_iff_of_nodup (hL.filter _) hS]
    intro x
    simp only [List.mem_filter]
    constructor
    · rintro ⟨-, hx⟩
      simpa using hx
    · intro hx
      exact ⟨hsub x hx, by simpa using hx⟩
  have h2 : (L.map (fun q => q.qid)).filter (fun x => S.contains x) =
      (L.filter (fun q => S.contains q.qid)).map (fun q => q.qid) := by
    rw [List.filter_map]
    rfl
  have h3 := h1.length_eq
  rw [h2, List.length_map] at h3
  exact h3

theorem length_filter_not_mem (L : List Question) (S : List Nat)
    (hL : (L.map (fun q => q.qid)).Nodup) (hS : S.Nodup)
    (hsub : ∀ x ∈ S, x ∈ L.map (fun q => q.qid)) :
    (L.filter (fun q => !S.contains q.qid)).length = L.length - S.length
    := by
  have hsplit := length_filter_split (fun q => S.contains q.qid) L
  have hmem := length_filter_mem_eq L S hL hS hsub
  omega

/-- C7: on any pool with exactly 12 questions of 2 marks, 3 of 3 marks
and none of 5 marks (identifiers distinct), the fixed plan delivers 10
items to section A, 2 to B part 1, 3 to B part 2 and 0 to C, and the
report shows pre-allocation pool sizes 12, 3 and 0. -/
theorem C7_scenario (rA rB1 rB2 rC : Nat → Nat) (all : List Question)
    (hn : (all.map (fun q => q.qid)).Nodup)
    (h2 : (all.filter (fun q => q.marks == 2)).length = 12)
    (h3 : (all.filter (fun q => q.marks == 3)).length = 3)
    (h5 : (all.filter (fun q => q.marks == 5)).length = 0) :
    (generate rA rB1 rB2 rC all).map
        (fun p => (p.sectionA.length, p.sectionB_part1.length,
          p.sectionB_part2.length, p.sectionC.length)) =
      some (10, 2, 3, 0) ∧
    (generate rA rB1 rB2 rC all).map (fun p => p.report.available) =
      some ⟨12, 3, 0⟩ ∧
    (generate rA rB1 rB2 rC all).map (fun p => p.report.pickedCounts) =
      some ⟨10, 2, 3, 0⟩ := by
  have hne : ¬ (all.isEmpty = true) := by
    intro hall
    rw [List.isEmpty_iff] at hall
    subst hall
    simp at h2
  rw [generate, if_neg hne]
  set A := pickUnique rA all [] 2 10 with hAdef
  set B1 := pickUnique rB1 all (usedAfter [] A) 2 5 with hB1def
  set B2 := pickUnique rB2 all (usedAfter (usedAfter [] A) B1) 3 5
    with hB2def
  set C := pickUnique rC all
    (usedAfter (usedAfter (usedAfter [] A) B1) B2) 5 7 with hCdef
  have hb2nodup : ((bucketOf all 2).map (fun q => q.qid)).Nodup :=
    ((bucketOf_sublist all 2).map _).nodup hn
  have hAnodup : (A.map (fun q => q.qid)).Nodup :=
    hAdef.symm ▸ pickUnique_map_nodup rA all [] 2 10 hn
  have hB1nodup : (B1.map (fun q => q.qid)).Nodup :=
    hB1def.symm ▸ pickUnique_map_nodup rB1 all _ 2 5 hn
  have hAbucket : ∀ x ∈ A.map (fun q => q.qid),
      x ∈ (bucketOf all 2).map (fun q => q.qid) := by
    intro x hx
    rw [List.mem_map] at hx ⊢
    obtain ⟨q, hq, rfl⟩ := hx
    exact ⟨q, (pickUnique_mem rA all [] 2 10 q (hAdef ▸ hq)).1, rfl⟩
  have hB1bucket : ∀ x ∈ B1.map (fun q => q.qid),
      x ∈ (bucketOf all 2).map (fun q => q.qid) := by
    intro x hx
    rw [List.mem_map] at hx ⊢
    obtain ⟨q, hq, rfl⟩ := hx
    exact ⟨q, (pickUnique_mem rB1 all _ 2 5 q (hB1def ▸ hq)).1, rfl⟩
  have lenA : A.length = 10 := by
    rw [hAdef, pickUnique_length]
    have hfil : (bucketOf all 2).filter
        (fun q => !(([] : List Nat).contains q.qid)) = bucketOf all 2 :=
      List.filter_eq_self.2 (fun a _ => by simp)
    rw [hfil, bucketOf_two, h2]
    decide
  have lenB1 : B1.length = 2 := by
    rw [hB1def, pickUnique_length]
    rw [show usedAfter [] A = A.map (fun q => q.qid) from rfl]
    rw [length_filter_not_mem (bucketOf all 2) (A.map (fun q => q.qid))
      hb2nodup hAnodup hAbucket]
    rw [bucketOf_two, h2, List.length_map, lenA]
    decide
  have lenB2 : B2.length = 3 := by
    rw [hB2def, pickUnique_length]
    rw [show usedAfter (usedAfter [] A) B1 =
      A.map (fun q => q.qid) ++ B1.map (fun q => q.qid) from rfl]
    have hB2avail : (bucketOf all 3).filter
        (fun q => !((A.map (fun r => r.qid) ++
          B1.map (fun r => r.qid)).contains q.qid)) = bucketOf all 3 := by
      apply List.filter_eq_self.2
      intro q hq
      have hq3 : q ∈ all ∧ (q.marks == 3) = true := by
        rw [bucketOf_three] at hq
        exact List.mem_filter.1 hq
      have key : q.qid ∉ A.map (fun r => r.qid) ++
          B1.map (fun r => r.qid) := by
        intro hmem
        have hx : q.qid ∈ (bucketOf all 2).map (fun r => r.qid) := by
          rcases List.mem_append.1 hmem with h | h
          · exact hAbucket _ h
          · exact hB1bucket _ h
        rw [List.mem_map] at hx
        obtain ⟨p, hp, hpq⟩ := hx
        have hp2 : p ∈ all ∧ (p.marks == 2) = true := by
          rw [bucketOf_two] at hp
          exact List.mem_filter.1 hp
        have hpeq : p = q :=
          List.inj_on_of_nodup_map hn hp2.1 hq3.1 hpq
        rw [hpeq] at hp2
        have e2 := hp2.2
        have e3 := hq3.2
        simp only [beq_iff_eq] at e2 e3
        omega
      simpa using key
    rw [hB2avail, bucketOf_three, h3]
    decide
  have lenC : C.length = 0 := by
    rw [hCdef, pickUnique_length]
    have h50 : bucketOf all 5 = [] := by
      rw [bucketOf_five]
      exact List.eq_nil_of_length_eq_zero h5
    rw [h50]
    simp
  refine ⟨?_, ?_, ?_⟩
  · refine congrArg some ?_
    show (A.length, B1.length, B2.length, C.length) = (10, 2, 3, 0)
    rw [lenA, lenB1, lenB2, lenC]
  · refine congrArg some ?_
    show (⟨(bucketOf all 2).length, (bucketOf all 3).length,
      (bucketOf all 5).length⟩ : Available) = ⟨12, 3, 0⟩
    rw [bucketOf_two, bucketOf_three, bucketOf_five, h2, h3, h5]
  · refine congrArg some ?_
    show (⟨A.length, B1.length, B2.length, C.length⟩ : PickedCounts) =
      ⟨10, 2, 3, 0⟩
    rw [lenA, lenB1, lenB2, lenC]

theorem C7_scenario_witness :
    (generate (fun _ => 0) (fun _ => 0) (fun _ => 0) (fun _ => 0)
        [⟨0, 2⟩, ⟨1, 2⟩, ⟨2, 2⟩, ⟨3, 2⟩, ⟨4, 2⟩, ⟨5, 2⟩, ⟨6, 2⟩, ⟨7, 2⟩,
         ⟨8, 2⟩, ⟨9, 2⟩, ⟨10, 2⟩, ⟨11, 2⟩, ⟨12, 3⟩, ⟨13, 3⟩,
         ⟨14, 3⟩]).map
        (fun p => (p.sectionA.length, p.sectionB_part1.length,
          p.sectionB_part2.length, p.sectionC.length)) =
      some (10, 2, 3, 0) :=
  (C7_scenario (fun _ => 0) (fun _ => 0) (fun _ => 0) (fun _ => 0)
    [⟨0, 2⟩, ⟨1, 2⟩, ⟨2, 2⟩, ⟨3, 2⟩, ⟨4, 2⟩, ⟨5, 2⟩, ⟨6, 2⟩, ⟨7, 2⟩,
     ⟨8, 2⟩, ⟨9, 2⟩, ⟨10, 2⟩, ⟨11, 2⟩, ⟨12, 3⟩, ⟨13, 3⟩, ⟨14, 3⟩]
    (by decide) (by decide) (by decide) (by decide)).1

/-! ### Claim C8: Fisher–Yates as a choice-driven process -/

theorem applyChoices_length : ∀ (cs : List Nat) (l : List α),
    (applyChoices cs l).length = l.length
  | [], _ => rfl
  | c :: cs, l => by
    simp only [applyChoices, List.length_append]
    rw [applyChoices_length cs]
    rw [List.length_take, List.length_drop, listSwap_length]
    omega

theorem listSwap_append (X B : List α) (i j : Nat) (hi : i < X.length)
    (hj : j < X.length) :
    listSwap (X ++ B) i j = listSwap X i j ++ B := by
  simp only [listSwap, List.getElem?_append_left hi,
    List.getElem?_append_left hj, List.getElem?_eq_getElem hi,
    List.getElem?_eq_getElem hj]
  rw [List.set_append, if_pos hi, List.set_append]
  rw [if_pos (show j < (X.set i X[j]).length by
    rw [List.length_set]; exact hj)]

theorem foldl_listSwap_split (rnd : Nat → Nat) :
    ∀ (I : List Nat) (X B : List α),
      (∀ i ∈ I, i < X.length ∧ rnd i < X.length) →
      I.foldl (fun arr i => listSwap arr i (rnd i)) (X ++ B) =
        (I.foldl (fun arr i => listSwap arr i (rnd i)) X) ++ B
  | [], _, _, _ => rfl
  | i :: I, X, B, h => by
    rw [List.foldl_cons, List.foldl_cons]
    have hi := h i (List.mem_cons_self i I)
    rw [listSwap_append X B i (rnd i) hi.1 hi.2]
    exact foldl_listSwap_split rnd I (listSwap X i (rnd i)) B
      (fun j hj => by
        rw [listSwap_length]
        exact h j (List.mem_cons_of_mem i hj))

theorem listSwap_last_getElem? (l : List α) (c : Nat) (h0 : 0 < l.length)
    (hc : c < l.length) :
    (listSwap l (l.length - 1) c)[l.length - 1]? = l[c]? := by
  have hlast : l.length - 1 < l.length := by omega
  simp only [listSwap, List.getElem?_eq_getElem hlast,
    List.getElem?_eq_getElem hc]
  by_cases he : c = l.length - 1
  · subst he
    rw [List.getElem?_set]
    simp [List.length_set, hc]
  · rw [List.getElem?_set, if_neg he]
    rw [List.getElem?_set, if_pos rfl, if_pos hlast]

theorem listSwap_drop_last (l : List α) (c : Nat) (h0 : 0 < l.length)
    (hc : c < l.length) :
    (listSwap l (l.length - 1) c).drop (l.length - 1) = [l[c]] := by
  have hlen : (listSwap l (l.length - 1) c).length = l.length :=
    listSwap_length l _ c
  have hlast : l.length - 1 < (listSwap l (l.length - 1) c).length := by
    omega
  rw [List.drop_eq_getElem_cons hlast]
  have h1 : (listSwap l (l.length - 1) c)[l.length - 1] = l[c] := by
    have := listSwap_last_getElem? l c h0 hc
    rw [List.getElem?_eq_getElem hlast, List.getElem?_eq_getElem hc]
      at this
    exact Option.some_inj.1 this
  have h2 : (listSwap l (l.length - 1) c).drop (l.length - 1 + 1) = [] := by
    have : l.length - 1 + 1 = (listSwap l (l.length - 1) c).length := by
      omega
    rw [this, List.drop_length]
  rw [h1, h2]

theorem choicesOf_zero (rnd : Nat → Nat) : choicesOf rnd 0 = [] := rfl

theorem choicesOf_one (rnd : Nat → Nat) : choicesOf rnd 1 = [] := rfl

theorem choicesOf_succ (rnd : Nat → Nat) (n : Nat) (hn : 1 ≤ n) :
    choicesOf rnd (n + 1) = rnd n :: choicesOf rnd n := by
  have hr : List.range' 1 n = List.range' 1 (n - 1) ++ [n] := by
    obtain ⟨m, rfl⟩ : ∃ m, n = m + 1 := ⟨n - 1, by omega⟩
    rw [List.range'_1_concat]
    simp [Nat.add_comm]
  rw [choicesOf, show n + 1 - 1 = n from rfl, hr, List.reverse_concat,
    List.map_cons]
  rfl

theorem choicesOf_length (rnd : Nat → Nat) (n : Nat) :
    (choicesOf rnd n).length = n - 1 := by
  rw [choicesOf, List.length_map, List.length_reverse, List.length_range']

theorem choicesOf_getD (rnd : Nat → Nat) (n k : Nat) (hk : k < n - 1) :
    (choicesOf rnd n).getD k 0 = rnd (n - 1 - k) := by
  have hlen2 : k < ((List.range' 1 (n - 1)).reverse).length := by
    simp only [List.length_reverse, List.length_range']
    exact hk
  have hlen : k < (choicesOf rnd n).length := by
    rw [choicesOf_length]; exact hk
  rw [List.getD_eq_getElem _ _ hlen]
  show ((List.range' 1 (n - 1)).reverse.map rnd)[k] = rnd (n - 1 - k)
  rw [List.getElem_map]
  congr 1
  rw [List.getElem_reverse]
  rw [List.getElem_range']
  simp only [List.length_range']
  omega

theorem validChoices_choicesOf (rnd : Nat → Nat) (n : Nat)
    (hrnd : ∀ i, rnd i ≤ i) : ValidChoices n (choicesOf rnd n) := by
  refine ⟨choicesOf_length rnd n, ?_⟩
  intro k hk
  rw [choicesOf_length] at hk
  rw [choicesOf_getD rnd n k hk]
  exact hrnd (n - 1 - k)

theorem validChoices_cons_iff (n : Nat) (hn : 1 ≤ n) (c : Nat)
    (cs : List Nat) :
    ValidChoices (n + 1) (c :: cs) ↔ c ≤ n ∧ ValidChoices n cs := by
  constructor
  · rintro ⟨hlen, hbound⟩
    rw [List.length_cons] at hlen
    refine ⟨?_, ?_, ?_⟩
    · have := hbound 0 (by rw [List.length_cons]; omega)
      simpa using this
    · omega
    · intro k hk
      have := hbound (k + 1) (by rw [List.length_cons]; omega)
      rw [List.getD_cons_succ] at this
      have harith : n + 1 - 1 - (k + 1) = n - 1 - k := by omega
      rw [harith] at this
      exact this
  · rintro ⟨hc, hlen, hbound⟩
    refine ⟨by rw [List.length_cons]; omega, ?_⟩
    intro k hk
    cases k with
    | zero => simpa using hc
    | succ k =>
      rw [List.getD_cons_succ]
      have harith : n + 1 - 1 - (k + 1) = n - 1 - k := by omega
      rw [harith]
      exact hbound k (by rw [List.length_cons] at hk; omega)

theorem perm_append_singleton_inv {q r : List α} {x : α}
    (h : (q ++ [x]).Perm (r ++ [x])) : q.Perm r := by
  have h1 : (x :: (q ++ [])).Perm (x :: (r ++ [])) :=
    (List.perm_middle.symm.trans h).trans List.perm_middle
  rw [List.append_nil, List.append_nil] at h1
  exact h1.cons_inv

theorem shuffleArray_eq_applyChoices (rnd : Nat → Nat)
    (hrnd : ∀ i, rnd i ≤ i) :
    ∀ (n : Nat) (l : List α), l.length = n →
      shuffleArray rnd l = applyChoices (choicesOf rnd n) l := by
  intro n
  induction n with
  | zero =>
    intro l hl
    rw [List.length_eq_zero] at hl
    subst hl
    rfl
  | succ n ih =>
    intro l hl
    cases Nat.eq_zero_or_pos n with
    | inl h0 =>
      subst h0
      rw [choicesOf_one]
      rw [shuffleArray, hl]
      rfl
    | inr hpos =>
      rw [choicesOf_succ rnd n hpos]
      rw [shuffleArray, hl]
      have hidx : (List.range' 1 (n + 1 - 1)).reverse =
          n :: (List.range' 1 (n - 1)).reverse := by
        have hr : List.range' 1 n = List.range' 1 (n - 1) ++ [n] := by
          obtain ⟨m, rfl⟩ : ∃ m, n = m + 1 := ⟨n - 1, by omega⟩
          rw [List.range'_1_concat]
          simp [Nat.add_comm]
        rw [show n + 1 - 1 = n from rfl, hr, List.reverse_concat]
      rw [hidx, List.foldl_cons]
      have hlen1 : (listSwap l n (rnd n)).length = n + 1 := by
        rw [listSwap_length, hl]
      have htklen : ((listSwap l n (rnd n)).take n).length = n := by
        rw [List.length_take, hlen1]
        omega
      have hcond : ∀ i ∈ (List.range' 1 (n - 1)).reverse,
          i < ((listSwap l n (rnd n)).take n).length ∧
            rnd i < ((listSwap l n (rnd n)).take n).length := by
        intro i hi
        rw [List.mem_reverse, List.mem_range'_1] at hi
        rw [htklen]
        have := hrnd i
        omega
      have hsplit := foldl_listSwap_split rnd
        ((List.range' 1 (n - 1)).reverse)
        ((listSwap l n (rnd n)).take n) ((listSwap l n (rnd n)).drop n)
        hcond
      rw [List.take_append_drop] at hsplit
      rw [hsplit]
      have hshuf : (List.range' 1 (n - 1)).reverse.foldl
          (fun arr i => listSwap arr i (rnd i))
          ((listSwap l n (rnd n)).take n) =
          shuffleArray rnd ((listSwap l n (rnd n)).take n) := by
        rw [shuffleArray, htklen]
      rw [hshuf, ih _ htklen]
      have hunfold : applyChoices (rnd n :: choicesOf rnd n) l =
          applyChoices (choicesOf rnd n)
            ((listSwap l (l.length - 1) (rnd n)).take (l.length - 1)) ++
            (listSwap l (l.length - 1) (rnd n)).drop (l.length - 1) := rfl
      rw [hunfold, hl]
      rfl

theorem applyChoices_bijective :
    ∀ (n : Nat) (l p : List α), l.length = n → l.Nodup → p.Perm l →
      ∃! cs, ValidChoices n cs ∧ applyChoices cs l = p := by
  intro n
  induction n with
  | zero =>
    intro l p hl hnd hp
    rw [List.length_eq_zero] at hl
    subst hl
    rw [List.perm_nil] at hp
    subst hp
    refine ⟨[], ⟨⟨rfl, fun k hk => by simp at hk⟩, rfl⟩, ?_⟩
    rintro ds ⟨⟨hdl, -⟩, -⟩
    simpa using List.length_eq_zero.1 hdl
  | succ n ih =>
    intro l p hl hnd hp
    cases Nat.eq_zero_or_pos n with
    | inl h0 =>
      subst h0
      obtain ⟨a, rfl⟩ := List.length_eq_one.1 hl
      rw [List.perm_singleton] at hp
      subst hp
      refine ⟨[], ⟨⟨rfl, fun k hk => by simp at hk⟩, rfl⟩, ?_⟩
      rintro ds ⟨⟨hdl, -⟩, -⟩
      simpa using List.length_eq_zero.1 hdl
    | inr hpos =>
      have hplen : p.length = n + 1 := by rw [hp.length_eq, hl]
      rcases List.eq_nil_or_concat p with rfl | ⟨q, x, rfl⟩
      · simp at hplen
      simp only [List.concat_eq_append] at hp hplen ⊢
      have hxl : x ∈ l := hp.subset (by simp)
      obtain ⟨c, hc, hcx⟩ := List.mem_iff_getElem.1 hxl
      have h0l : 0 < l.length := by omega
      have hceil : c ≤ n := by omega
      have hlen1 : (listSwap l (l.length - 1) c).length = n + 1 := by
        rw [listSwap_length, hl]
      have hdrop : (listSwap l (l.length - 1) c).drop (l.length - 1) =
          [x] := by
        rw [listSwap_drop_last l c h0l hc, hcx]
      have hperm1 : (listSwap l (l.length - 1) c).Perm l :=
        listSwap_perm _ _ _
      have hnd1 : (listSwap l (l.length - 1) c).Nodup :=
        hperm1.nodup_iff.2 hnd
      have htake_nd :
          ((listSwap l (l.length - 1) c).take (l.length - 1)).Nodup :=
        (List.take_sublist _ _).nodup hnd1
      have htklen :
          ((listSwap l (l.length - 1) c).take (l.length - 1)).length =
            n := by
        rw [List.length_take, hlen1, hl]
        omega
      have h1 : listSwap l (l.length - 1) c =
          (listSwap l (l.length - 1) c).take (l.length - 1) ++ [x] := by
        conv_lhs => rw [← List.take_append_drop (l.length - 1)
          (listSwap l (l.length - 1) c), hdrop]
      have hqx : (q ++ [x]).Perm
          ((listSwap l (l.length - 1) c).take (l.length - 1) ++ [x]) := by
        rw [← h1]
        exact hp.trans hperm1.symm
      have hqperm : q.Perm
          ((listSwap l (l.length - 1) c).take (l.length - 1)) :=
        perm_append_singleton_inv hqx
      obtain ⟨cs', ⟨hv', he'⟩, huniq'⟩ :=
        ih ((listSwap l (l.length - 1) c).take (l.length - 1)) q htklen
          htake_nd hqperm
      refine ⟨c :: cs', ⟨?_, ?_⟩, ?_⟩
      · rw [validChoices_cons_iff n hpos c cs']
        exact ⟨hceil, hv'⟩
      · have hunfold : applyChoices (c :: cs') l =
            applyChoices cs'
              ((listSwap l (l.length - 1) c).take (l.length - 1)) ++
              (listSwap l (l.length - 1) c).drop (l.length - 1) := rfl
        rw [hunfold, he', hdrop]
      · rintro ds ⟨hdv, hde⟩
        have hdlen : ds.length = n := by
          have := hdv.1
          simpa using this
        obtain ⟨d, ds', rfl⟩ : ∃ d ds', ds = d :: ds' := by
          cases ds with
          | nil => simp at hdlen; omega
          | cons d ds' => exact ⟨d, ds', rfl⟩
        rw [validChoices_cons_iff n hpos d ds'] at hdv
        obtain ⟨hdn, hdv'⟩ := hdv
        have hdc : d < l.length := by omega
        have hunfoldd : applyChoices (d :: ds') l =
            applyChoices ds'
              ((listSwap l (l.length - 1) d).take (l.length - 1)) ++
              (listSwap l (l.length - 1) d).drop (l.length - 1) := rfl
        rw [hunfoldd] at hde
        have hdropd : (listSwap l (l.length - 1) d).drop (l.length - 1) =
            [l[d]] := listSwap_drop_last l d h0l hdc
        rw [hdropd] at hde
        have hlen_app : (applyChoices ds'
            ((listSwap l (l.length - 1) d).take (l.length - 1))).length =
              n := by
          rw [applyChoices_length, List.length_take, listSwap_length, hl]
          omega
        have hqlen : q.length = n := by
          rw [List.length_append] at hplen
          simp only [List.length_cons, List.length_nil] at hplen
          omega
        obtain ⟨heq1, heq2⟩ := List.append_inj hde
          (by rw [hlen_app, hqlen])
        have hxd : l[d] = x := by
          injection heq2
        have hdc_eq : d = c := by
          have hdceq : l[d] = l[c] := by rw [hxd, hcx]
          exact (List.Nodup.getElem_inj_iff hnd).1 hdceq
        subst hdc_eq
        rw [huniq' ds' ⟨hdv', heq1⟩]

/-- C8: for every input array, under any run-time random draws
(`rnd i ≤ i`, the only values `Math.floor(Math.random() * (i + 1))` can
produce), `shuffleArray` returns a full rearrangement of its input; the
shuffle is exactly the process driven by the consumed choice sequence,
every run-time choice sequence is valid, and — for distinct elements —
each permutation of the input is produced by exactly one valid choice
sequence, so a uniform random source makes every permutation equally
likely (same count of choice sequences, namely one, per permutation). -/
theorem C8_shuffle_permutation_uniform (l : List α) (rnd : Nat → Nat)
    (hrnd : ∀ i, rnd i ≤ i) :
    (shuffleArray rnd l).Perm l ∧
    shuffleArray rnd l = applyChoices (choicesOf rnd l.length) l ∧
    ValidChoices l.length (choicesOf rnd l.length) ∧
    (l.Nodup → ∀ p, p.Perm l →
      ∃! cs, ValidChoices l.length cs ∧ applyChoices cs l = p) :=
  ⟨shuffleArray_perm rnd l,
   shuffleArray_eq_applyChoices rnd hrnd l.length l rfl,
   validChoices_choicesOf rnd l.length hrnd,
   fun hnd p hp => applyChoices_bijective l.length l p rfl hnd hp⟩

theorem C8_shuffle_permutation_uniform_witness :
    (shuffleArray (fun _ => 0) [0, 1, 2]).Perm [0, 1, 2] :=
  (C8_shuffle_permutation_uniform [0, 1, 2] (fun _ => 0)
    (fun i => Nat.zero_le i)).1
